import Mathlib

/-!
# Verification of `flow_compensator.py`

A shallow embedding of the flow-compensation engine from
`src/flow_compensator.py` (classes `GCodeParser` and `FlowCompensator`,
plus the tool-change handling of `main`), together with proofs settling
the frozen claims about the program.

Modelling conventions:
* Python floats are modelled as exact rationals (`ℚ`); `math.pi` is
  modelled by the rational value of the IEEE-754 double `math.pi`.
* `math.sqrt` is modelled by a fixed-precision rational square root
  (`sqrtQ`); no settled claim depends on its values.
* Regex operations (`match`/`search`/`findall`/`sub`) on the patterns of
  the source are modelled by explicit scanners over `List Char` with the
  leftmost, greedy semantics of the concrete patterns.
* Python dicts keyed by tool number / material name are modelled by
  association lists with replace-on-insert semantics.
* `scipy.interpolate.PchipInterpolator` is external library code; its
  construction-time input validation (x strictly increasing) and its
  evaluation algorithm (PCHIP derivative rule + cubic Hermite pieces)
  are modelled from scipy's documented behaviour, in exact arithmetic.
* Raising an exception is modelled by `Except.error`.
-/

deriving instance DecidableEq for Except

namespace FlowComp

/-! ## Character and digit utilities -/

/-- The decimal digit characters recognised by the numeric regexes. -/
def isDigitCh (c : Char) : Bool :=
  c = '0' ∨ c = '1' ∨ c = '2' ∨ c = '3' ∨ c = '4' ∨
  c = '5' ∨ c = '6' ∨ c = '7' ∨ c = '8' ∨ c = '9'

/-- Numeric value of a digit character. -/
def digitVal (c : Char) : Nat :=
  if c = '1' then 1 else if c = '2' then 2 else if c = '3' then 3 else
  if c = '4' then 4 else if c = '5' then 5 else if c = '6' then 6 else
  if c = '7' then 7 else if c = '8' then 8 else if c = '9' then 9 else 0

/-- The digit character for `n % 10`. -/
def digitCh (n : Nat) : Char :=
  if n % 10 = 1 then '1' else if n % 10 = 2 then '2' else if n % 10 = 3 then '3' else
  if n % 10 = 4 then '4' else if n % 10 = 5 then '5' else if n % 10 = 6 then '6' else
  if n % 10 = 7 then '7' else if n % 10 = 8 then '8' else if n % 10 = 9 then '9' else '0'

/-- Value of a digit string read most-significant first (as `float`/`int`
parsing does for the digit runs captured by the regexes). -/
def natOfDigits (l : List Char) : Nat :=
  l.foldl (fun a c => 10 * a + digitVal c) 0

/-- Decimal digits, most significant first; structural in a fuel
argument so that concrete evaluation reduces. -/
def natDigitsAux (fuel n : Nat) : List Char :=
  match fuel with
  | 0 => []
  | fuel + 1 => if n < 10 then [digitCh n] else natDigitsAux fuel (n / 10) ++ [digitCh n]

/-- Decimal digits of `n`, most significant first (`"0"` for zero). -/
def natDigits (n : Nat) : List Char := natDigitsAux (n + 1) n

/-- Decimal digits of `n` left-padded with zeros to width `k`
(as the fractional part of `"%.\{k\}f"` formatting). -/
def natDigitsPad (k n : Nat) : List Char :=
  List.replicate (k - (natDigits n).length) '0' ++ natDigits n

/-! ## The numeric-field pattern

All four field regexes of the source share the numeral sub-pattern
(optional sign, optional integer digits, optional dot, mandatory final
digits).  With Python's leftmost-greedy backtracking this matches, at a
given start position: an optional sign, then a maximal digit run, then a
dot followed by a further maximal digit run provided at least one digit
follows the dot; the whole match requires at least one digit. -/

/-- Maximal digit run at the front of `l`, and the remainder. -/
def takeDigits (l : List Char) : List Char × List Char :=
  match l with
  | [] => ([], [])
  | c :: rest =>
      if isDigitCh c then
        let p := takeDigits rest
        (c :: p.1, p.2)
      else ([], c :: rest)

/-- After the integer digit run: a dot followed by at least one digit
yields the fractional digit run (greedy), otherwise the dot is not part
of the match. -/
def dotFrac (r1 : List Char) : Option (List Char) :=
  match r1 with
  | [] => none
  | a :: r2 => if a = '.' ∧ isDigitCh (r2.headD ' ') then some (takeDigits r2).1 else none

/-- The unsigned numeral match: matched text and its value as parsed by
Python's `float` (decimals taken exactly). -/
def matchNumBody (l : List Char) : Option (List Char × ℚ) :=
  let d1 := (takeDigits l).1
  let r1 := (takeDigits l).2
  match dotFrac r1 with
  | some d2 => some (d1 ++ '.' :: d2,
      (natOfDigits d1 : ℚ) + (natOfDigits d2 : ℚ) / 10 ^ d2.length)
  | none => if d1 = [] then none else some (d1, (natOfDigits d1 : ℚ))

/-- The signed numeral match at the start of `l`. -/
def matchNumAt (l : List Char) : Option (List Char × ℚ) :=
  match l with
  | [] => none
  | a :: r =>
      if a = '-' then (matchNumBody r).map (fun p => ('-' :: p.1, -p.2))
      else if a = '+' then (matchNumBody r).map (fun p => ('+' :: p.1, p.2))
      else matchNumBody (a :: r)

/-- `re.search` for letter `c` followed by a numeral: returns the text
before the match, the matched numeral text, its value, and the text after
the match. -/
def searchNum (c : Char) : List Char → Option (List Char × List Char × ℚ × List Char)
  | [] => none
  | a :: rest =>
      if a = c then
        match matchNumAt rest with
        | some (m, v) => some ([], m, v, rest.drop m.length)
        | none => (searchNum c rest).map (fun r => (a :: r.1, r.2))
      else (searchNum c rest).map (fun r => (a :: r.1, r.2))

theorem takeDigits_append (l : List Char) : (takeDigits l).1 ++ (takeDigits l).2 = l := by
  induction l with
  | nil => rfl
  | cons c rest ih =>
      by_cases h : isDigitCh c = true <;> simp [takeDigits, h, ih]

theorem dotFrac_decomp {r1 d2 : List Char} (h : dotFrac r1 = some d2) :
    ∃ r, r1 = '.' :: (d2 ++ r) := by
  match r1 with
  | [] => simp [dotFrac] at h
  | a :: r2 =>
      rw [dotFrac] at h
      split at h
      · rename_i hc
        obtain rfl : (takeDigits r2).1 = d2 := by simpa using h
        exact ⟨(takeDigits r2).2, by simp [hc.1, takeDigits_append r2]⟩
      · simp at h

theorem matchNumBody_decomp {l m : List Char} {v : ℚ}
    (h : matchNumBody l = some (m, v)) : ∃ r, l = m ++ r := by
  rw [matchNumBody] at h
  split at h
  · rename_i d2 hd
    obtain ⟨rfl, -⟩ : (takeDigits l).1 ++ '.' :: d2 = m ∧ _ := by simpa using h
    obtain ⟨r, hr⟩ := dotFrac_decomp hd
    refine ⟨r, ?_⟩
    conv_lhs => rw [← takeDigits_append l]
    rw [hr]
    simp
  · split at h
    · simp at h
    · obtain ⟨rfl, -⟩ : (takeDigits l).1 = m ∧ _ := by simpa using h
      exact ⟨(takeDigits l).2, (takeDigits_append l).symm⟩

theorem matchNumAt_decomp {l m : List Char} {v : ℚ}
    (h : matchNumAt l = some (m, v)) : ∃ r, l = m ++ r := by
  match l with
  | [] => simp [matchNumAt] at h
  | a :: l2 =>
      rw [matchNumAt] at h
      split at h
      · rename_i ha
        rcases hb : matchNumBody l2 with - | p <;> rw [hb] at h <;> simp at h
        obtain ⟨rfl, -⟩ := h
        obtain ⟨r, hr⟩ := matchNumBody_decomp hb
        exact ⟨r, by simp [ha, hr]⟩
      · split at h
        · rename_i ha
          rcases hb : matchNumBody l2 with - | p <;> rw [hb] at h <;> simp at h
          obtain ⟨rfl, -⟩ := h
          obtain ⟨r, hr⟩ := matchNumBody_decomp hb
          exact ⟨r, by simp [ha, hr]⟩
        · exact matchNumBody_decomp h

theorem matchNumAt_drop {l m : List Char} {v : ℚ}
    (h : matchNumAt l = some (m, v)) : l = m ++ l.drop m.length := by
  obtain ⟨r, rfl⟩ := matchNumAt_decomp h
  simp

theorem searchNum_decomp {c : Char} {l p m t : List Char} {v : ℚ}
    (h : searchNum c l = some (p, m, v, t)) : l = p ++ c :: (m ++ t) := by
  induction l generalizing p with
  | nil => simp [searchNum] at h
  | cons a rest ih =>
      rw [searchNum] at h
      split at h
      · rename_i hac
        split at h
        · rename_i m0 v0 hm
          obtain ⟨rfl, rfl, rfl, rfl⟩ : [] = p ∧ m0 = m ∧ v0 = v ∧ rest.drop m0.length = t := by
            simpa using h
          simpa [hac] using congrArg (a :: ·) (matchNumAt_drop hm)
        · rcases hs : searchNum c rest with - | r <;> rw [hs] at h <;> simp at h
          obtain ⟨rfl, hrest⟩ := h
          have := @ih r.1 (by rw [hs]; cases r; simp_all)
          simp_all
      · rcases hs : searchNum c rest with - | r <;> rw [hs] at h <;> simp at h
        obtain ⟨rfl, hrest⟩ := h
        have := @ih r.1 (by rw [hs]; cases r; simp_all)
        simp_all

theorem searchNum_shrink {c : Char} {l p m t : List Char} {v : ℚ}
    (h : searchNum c l = some (p, m, v, t)) : t.length < l.length := by
  have := searchNum_decomp h
  subst this
  simp
  omega


/-! ## Fixed-precision formatting (Python `"%.Nf"` and the E-field rewrite) -/

/-- The integer `round(q * 10 ^ prec)`: the scaled value of `q` formatted
with `prec` decimals.  (Ties are rounded half-up; Python rounds the
underlying binary double to nearest, for which decimal ties do not
occur — the difference is immaterial to every claim, all of which allow
a half-ulp tolerance.) -/
def fixedVal (prec : Nat) (q : ℚ) : Int := round (q * 10 ^ prec)

/-- `q` rounded to `prec` decimal places. -/
def roundTo (prec : Nat) (q : ℚ) : ℚ := (fixedVal prec q : ℚ) / 10 ^ prec

/-- Python `f"{q:.{prec}f}"` (value-faithful: a negative zero prints
without the sign, which parses to the same value). -/
def fmtFixed (prec : Nat) (q : ℚ) : List Char :=
  let r := fixedVal prec q
  let n := r.natAbs
  (if r < 0 then ['-'] else []) ++ natDigits (n / 10 ^ prec) ++
    (if prec = 0 then [] else '.' :: natDigitsPad prec (n % 10 ^ prec))

/-- Python `str.rstrip` with a single strip character. -/
def rstripCh (c : Char) (l : List Char) : List Char :=
  (l.reverse.dropWhile (fun a => a = c)).reverse

/-- The rewritten extrusion field
`f'E{new_e:.6f}'.rstrip('0').rstrip('.')` of `replace_e`
(src/flow_compensator.py lines 384-387). -/
def fmtE (q : ℚ) : List Char :=
  'E' :: rstripCh '.' (rstripCh '0' (fmtFixed 6 q))

/-- `EXTRUSION_PATTERN.sub(replace_e, line)`: every match of
`E([\-+]?\d*\.?\d+)` is replaced by the reformatted scaled value, left to
right, non-overlapping (src/flow_compensator.py line 389). -/
def subE (mult : ℚ) (s : List Char) : List Char :=
  match _h : searchNum 'E' s with
  | none => s
  | some (p, _, v, t) => p ++ fmtE (v * mult) ++ subE mult t
termination_by s.length
decreasing_by
  exact searchNum_shrink _h

/-- Python `str.rstrip()` / `str.strip()` whitespace. -/
def isPySpace (c : Char) : Bool :=
  c = ' ' ∨ c = '\t' ∨ c = '\n' ∨ c = '\r' ∨ c = '\x0b' ∨ c = '\x0c'

def rstripWs (l : List Char) : List Char := (l.reverse.dropWhile isPySpace).reverse

def stripWs (l : List Char) : List Char := (l.dropWhile isPySpace).reverse.dropWhile isPySpace |>.reverse

/-! ## `GCodeParser.parse_move` (src/flow_compensator.py lines 89-139) -/

/-- Integer square root by quarter-and-adjust recursion (structural in a
fuel argument so that concrete evaluation reduces). -/
def isqrtAux : Nat → Nat → Nat
  | 0, n => n
  | fuel + 1, n =>
      if n < 2 then n
      else
        let r := 2 * isqrtAux fuel (n / 4)
        if (r + 1) * (r + 1) ≤ n then r + 1 else r

def isqrt (n : Nat) : Nat := isqrtAux n n

/-- `math.sqrt`, modelled as a fixed-precision rational square root of
the exact argument.  No settled claim depends on its values (it only
enters the `distance` field of a move descriptor). -/
def sqrtQ (q : ℚ) : ℚ :=
  (isqrt (q * 10 ^ 12).floor.toNat : ℚ) / 10 ^ 6

/-- The tracked position dictionary (keys x, y, z, e; `main` initialises
all four to 0, and `parse_move` defaults absent keys to 0). -/
structure Pos where
  x : ℚ
  y : ℚ
  z : ℚ
  e : ℚ
deriving DecidableEq

/-- A move descriptor (`move_info` dict). -/
structure MoveInfo where
  extrusion : ℚ
  distance : ℚ
  feedrate : ℚ
deriving DecidableEq

/-- `G1_PATTERN = re.compile(r'^G[01]')` used via `.match`: the line's
first character is `G` and its second is `0` or `1` (so `G0`, `G1`, and
also any longer opcode such as `G10`, `G02` or `G1x` are accepted). -/
def matchG01 (line : List Char) : Bool :=
  match line with
  | a :: b :: _ => a = 'G' ∧ (b = '0' ∨ b = '1')
  | _ => false

/-- `XYZ_PATTERN.findall(line)`: all non-overlapping matches of
`([XYZ])([\-+]?\d*\.?\d+)`, left to right. -/
def findAllXYZ : List Char → List (Char × ℚ)
  | [] => []
  | a :: rest =>
      if a = 'X' ∨ a = 'Y' ∨ a = 'Z' then
        match matchNumAt rest with
        | some (m, v) => (a, v) :: findAllXYZ (rest.drop m.length)
        | none => findAllXYZ rest
      else findAllXYZ rest
termination_by l => l.length
decreasing_by
  · simp only [List.length_drop, List.length_cons]
    omega
  · simp
  · simp

/-- The XYZ update loop: `new_pos[axis.lower()] = float(value)`. -/
def applyAxes (p : Pos) : List (Char × ℚ) → Pos
  | [] => p
  | (a, v) :: rest =>
      applyAxes
        (if a = 'X' then { p with x := v }
         else if a = 'Y' then { p with y := v }
         else { p with z := v }) rest

/-- `GCodeParser.parse_move(line, current_pos, current_feedrate)`. -/
def parseMove (line : List Char) (pos : Pos) (feedrate : ℚ) :
    Option MoveInfo × Pos × ℚ :=
  if ¬ matchG01 line then (none, pos, feedrate)
  else
    let fr := match searchNum 'F' line with
      | some (_, _, v, _) => v
      | none => feedrate
    let newPos := applyAxes pos (findAllXYZ line)
    match searchNum 'E' line with
    | none => (none, newPos, fr)
    | some (_, _, ev, _) =>
        if ev = 0 then (none, newPos, fr)
        else
          let dx := newPos.x - pos.x
          let dy := newPos.y - pos.y
          let dz := newPos.z - pos.z
          let distance := sqrtQ (dx ^ 2 + dy ^ 2 + dz ^ 2)
          (some ⟨|ev|, distance, fr⟩, { newPos with e := pos.e + ev }, fr)


/-! ## PCHIP interpolation (`scipy.interpolate.PchipInterpolator`, modelled)

The constructor validates that the breakpoints are strictly increasing;
construction precomputes the shape-preserving derivative at each
breakpoint; evaluation locates the interval of the query point and
evaluates that interval's cubic Hermite piece.  Modelled from scipy's
documented algorithm in exact arithmetic. -/

/-- `numpy.sign`. -/
def sgn (q : ℚ) : Int := if 0 < q then 1 else if q < 0 then -1 else 0

/-- scipy `PchipInterpolator._edge_case`: one-sided three-point estimate
of the endpoint derivative, clipped to preserve shape. -/
def pchipEdge (h0 h1 m0 m1 : ℚ) : ℚ :=
  let d := ((2 * h0 + h1) * m0 - h0 * m1) / (h0 + h1)
  if sgn d ≠ sgn m0 then 0
  else if sgn m0 ≠ sgn m1 ∧ |d| > 3 * |m0| then 3 * m0
  else d

/-- scipy `PchipInterpolator._find_derivatives`: the secant slope for two
points; otherwise zero at local extrema, a weighted harmonic mean of the
adjacent secant slopes at interior points, and the clipped three-point
estimate at the two endpoints. -/
def pchipDerivs (pts : List (ℚ × ℚ)) : List ℚ :=
  let n := pts.length
  let x := fun i => (pts.getD i (0, 0)).1
  let y := fun i => (pts.getD i (0, 0)).2
  let h := fun i => x (i + 1) - x i
  let m := fun i => (y (i + 1) - y i) / h i
  if n = 2 then [m 0, m 0]
  else
    (List.range n).map fun i =>
      if i = 0 then pchipEdge (h 0) (h 1) (m 0) (m 1)
      else if i = n - 1 then pchipEdge (h (n - 2)) (h (n - 3)) (m (n - 2)) (m (n - 3))
      else if sgn (m (i - 1)) ≠ sgn (m i) ∨ m (i - 1) = 0 ∨ m i = 0 then 0
      else
        let w1 := 2 * h i + h (i - 1)
        let w2 := h i + 2 * h (i - 1)
        (w1 + w2) / (w1 / m (i - 1) + w2 / m i)

/-- The cubic Hermite piece on `[x0, x1]` with values `y0, y1` and
derivatives `d0, d1`, written with the polynomial coefficients scipy
stores. -/
def hermite (x0 y0 d0 x1 y1 d1 t : ℚ) : ℚ :=
  let h := x1 - x0
  let m := (y1 - y0) / h
  let s := t - x0
  y0 + d0 * s + ((3 * m - 2 * d0 - d1) / h) * s ^ 2 + ((d0 + d1 - 2 * m) / h ^ 2) * s ^ 3

/-- Interval location and evaluation: the interval `[xᵢ, xᵢ₊₁)` containing
`t`, with queries at or beyond the last breakpoint using the last
interval. -/
def pchipEvalAux : (ℚ × ℚ) → ℚ → List (ℚ × ℚ) → List ℚ → ℚ → ℚ
  | p, _, [], _, _ => p.2
  | p, d, q :: rest, ds, t =>
      if rest = [] ∨ t < q.1 then hermite p.1 p.2 d q.1 q.2 (ds.headD 0) t
      else pchipEvalAux q (ds.headD 0) rest ds.tail t

/-- `PchipInterpolator.__call__` on the stored breakpoints. -/
def pchipEval (pts : List (ℚ × ℚ)) (t : ℚ) : ℚ :=
  match pts with
  | [] => 0
  | p :: rest =>
      pchipEvalAux p ((pchipDerivs pts).headD 0) rest (pchipDerivs pts).tail t

/-- Strict ordering of control points by their flow-rate coordinate. -/
def ltFst (a b : ℚ × ℚ) : Prop := a.1 < b.1

instance : IsTrans (ℚ × ℚ) ltFst := ⟨fun _ _ _ h1 h2 => lt_trans h1 h2⟩

instance : IsAntisymm (ℚ × ℚ) ltFst := ⟨fun _ _ h1 h2 => absurd h1 (lt_asymm h2)⟩

/-- `numpy.all(numpy.diff(x) > 0)`: adjacent breakpoints strictly
increase. -/
def strictIncB : List (ℚ × ℚ) → Bool
  | [] => true
  | [_] => true
  | p :: q :: rest => decide (p.1 < q.1) && strictIncB (q :: rest)

theorem strictIncB_iff (l : List (ℚ × ℚ)) :
    strictIncB l = true ↔ List.Chain' ltFst l := by
  induction l with
  | nil => simp [strictIncB]
  | cons p rest ih =>
      cases rest with
      | nil => simp [strictIncB]
      | cons q rest2 =>
          rw [strictIncB, List.chain'_cons, Bool.and_eq_true, decide_eq_true_iff, ih]
          rfl

/-- The `PchipInterpolator(x_vals, y_vals)` constructor: requires `x`
strictly increasing (scipy raises `ValueError` otherwise); the
interpolant is determined by the stored control points. -/
def mkPchip (pts : List (ℚ × ℚ)) : Except String (List (ℚ × ℚ)) :=
  if strictIncB pts then .ok pts
  else .error "x must be strictly increasing"

/-! ## The compensation engine (`FlowCompensator`) -/

/-- Association-list lookup for dicts keyed by tool number. -/
def lookupN {α : Type} (l : List (Nat × α)) (k : Nat) : Option α :=
  match l with
  | [] => none
  | (k2, v) :: rest => if k2 = k then some v else lookupN rest k

/-- Dict write `d[k] = v` (replaces in place, else appends). -/
def insertN {α : Type} (l : List (Nat × α)) (k : Nat) (v : α) : List (Nat × α) :=
  match l with
  | [] => [(k, v)]
  | (k2, v2) :: rest => if k2 = k then (k2, v) :: rest else (k2, v2) :: insertN rest k v

/-- A material profile from the configuration (only its
`curve_points` list is consumed by the engine). -/
structure MaterialProfile where
  curvePoints : List (ℚ × ℚ)
deriving DecidableEq

/-- The `output` section of the configuration (`config.get('output',
{}).get(..., default)` reads). -/
structure OutputConfig where
  minCompensation : Option ℚ
  maxCompensation : Option ℚ
  logChanges : Option Bool
deriving DecidableEq

/-- The configuration dict as consumed by the engine. -/
structure Config where
  materials : List (String × MaterialProfile)
  fallbackMaterial : Option String
  output : Option OutputConfig
deriving DecidableEq

/-- `config.get('output', {}).get('min_compensation', 0.8)`. -/
def minCompD (c : Config) : ℚ :=
  ((c.output.map OutputConfig.minCompensation).getD none).getD (8 / 10)

/-- `config.get('output', {}).get('max_compensation', 1.5)`. -/
def maxCompD (c : Config) : ℚ :=
  ((c.output.map OutputConfig.maxCompensation).getD none).getD (15 / 10)

/-- `config.get('output', {}).get('log_changes', True)`. -/
def logChangesD (c : Config) : Bool :=
  ((c.output.map OutputConfig.logChanges).getD none).getD true

/-- One entry of `tool_profiles`: material label, profile, and the built
spline (stored as its control points). -/
structure ToolEntry where
  material : String
  profile : MaterialProfile
  spline : List (ℚ × ℚ)
deriving DecidableEq

/-- One entry of `stats` (`_init_stats_for_tool`).  `float('inf')`
starting values are modelled as `none`. -/
structure ToolStats where
  totalMoves : Nat
  compensatedMoves : Nat
  minFlow : Option ℚ
  maxFlow : ℚ
  avgFlow : ℚ
  totalFlow : ℚ
  minMultiplier : Option ℚ
  maxMultiplier : ℚ
deriving DecidableEq

def initToolStats : ToolStats :=
  { totalMoves := 0, compensatedMoves := 0, minFlow := none, maxFlow := 0,
    avgFlow := 0, totalFlow := 0, minMultiplier := none, maxMultiplier := 0 }

/-- The mutable state of a `FlowCompensator`. -/
structure CompState where
  config : Config
  filamentDiameter : Option ℚ
  filamentArea : Option ℚ
  toolProfiles : List (Nat × ToolEntry)
  activeTool : Nat
  stats : List (Nat × ToolStats)
deriving DecidableEq

/-- `FlowCompensator._init_stats_for_tool`. -/
def initStatsForTool (s : CompState) (toolNum : Nat) : CompState :=
  if (lookupN s.stats toolNum).isSome then s
  else { s with stats := insertN s.stats toolNum initToolStats }

/-- `FlowCompensator.__init__(config)`. -/
def initState (c : Config) : CompState :=
  initStatsForTool
    { config := c, filamentDiameter := none, filamentArea := none,
      toolProfiles := [], activeTool := 0, stats := [] } 0

/-- Case-sensitive material lookup in insertion order. -/
def lookupMat (l : List (String × MaterialProfile)) (k : String) : Option MaterialProfile :=
  match l with
  | [] => none
  | (k2, v) :: rest => if k2 = k then some v else lookupMat rest k

/-- First case-insensitive material match in insertion order. -/
def lookupMatCI (l : List (String × MaterialProfile)) (k : String) : Option MaterialProfile :=
  match l with
  | [] => none
  | (k2, v) :: rest => if k2.toUpper = k.toUpper then some v else lookupMatCI rest k

/-- `FlowCompensator._get_material_profile` (exact match first, then
case-insensitive). -/
def getMaterialProfile (c : Config) (materialType : String) : Option MaterialProfile :=
  match lookupMat c.materials materialType with
  | some p => some p
  | none => lookupMatCI c.materials materialType

/-- `sorted(curve_points, key=lambda p: p[0])`: stable sort ascending by
flow rate. -/
def sortPts (l : List (ℚ × ℚ)) : List (ℚ × ℚ) :=
  l.mergeSort (fun p q => p.1 ≤ q.1)

/-- `FlowCompensator._build_spline_for_profile`: fewer than two control
points raise `ValueError`; the points are sorted ascending by flow rate
and handed to the `PchipInterpolator` constructor. -/
def buildSplineForProfile (profile : MaterialProfile) : Except String (List (ℚ × ℚ)) :=
  if profile.curvePoints.length < 2 then
    .error "At least 2 curve points required for interpolation"
  else
    mkPchip (sortPts profile.curvePoints)

/-- `FlowCompensator.load_material_profile(material_type, tool_num)`. -/
def loadMaterialProfile (s : CompState) (materialType : Option String) (toolNum : Nat) :
    Except String CompState :=
  let found := match materialType with
    | some mt => getMaterialProfile s.config mt
    | none => none
  let chosen : Option (MaterialProfile × String) := match found with
    | some p => some (p, materialType.getD "")
    | none =>
        let fallback := (s.config.fallbackMaterial).getD "default"
        match lookupMat s.config.materials fallback with
        | some p => some (p, fallback)
        | none =>
            match lookupMat s.config.materials "default" with
            | some p => some (p, fallback)
            | none => none
  match chosen with
  | none => .error "No material profile found in configuration"
  | some (profile, materialName) =>
      match buildSplineForProfile profile with
      | .error e => .error e
      | .ok spline =>
          let te : ToolEntry := ⟨materialName, profile, spline⟩
          .ok (initStatsForTool
            { s with toolProfiles := insertN s.toolProfiles toolNum te } toolNum)

/-- `FlowCompensator.set_active_tool(tool_num)` — an unconditional
assignment. -/
def setActiveTool (s : CompState) (toolNum : Nat) : CompState :=
  { s with activeTool := toolNum }

/-- The rational value of the IEEE-754 double `math.pi`. -/
def mathPi : ℚ := 884279719003555 / 281474976710656

/-- `FlowCompensator.set_filament_diameter(diameter)`:
`filament_area = math.pi * (diameter / 2) ** 2`. -/
def setFilamentDiameter (s : CompState) (diameter : ℚ) : CompState :=
  { s with filamentDiameter := some diameter,
           filamentArea := some (mathPi * (diameter / 2) ^ 2) }

/-- `FlowCompensator.calculate_flow_rate(extrusion, distance, feedrate)`:
zero when `distance == 0`, otherwise
`(extrusion * filament_area / distance) * feedrate / 60.0` (a `TypeError`
is raised if no filament area has been set). -/
def calcFlowRate (s : CompState) (extrusion distance feedrate : ℚ) : Except String ℚ :=
  if distance = 0 then .ok 0
  else
    match s.filamentArea with
    | none => .error "TypeError: filament_area is None"
    | some area => .ok (extrusion * area / distance * feedrate / 60)

/-- `FlowCompensator.get_compensation_multiplier(flow_rate)`:
1.0 if the active tool has no profile; otherwise the active tool's
spline evaluated at the flow rate clamped to the spline's breakpoint
range, the result clamped to the configured safety band. -/
def getCompensationMultiplier (s : CompState) (flowRate : ℚ) : ℚ :=
  match lookupN s.toolProfiles s.activeTool with
  | none => 1
  | some te =>
      let xMin := (te.spline.headD (0, 0)).1
      let xMax := (te.spline.getLastD (0, 0)).1
      let clamped := if flowRate < xMin then xMin
        else if flowRate > xMax then xMax
        else flowRate
      let multiplier := pchipEval te.spline clamped
      max (minCompD s.config) (min (maxCompD s.config) multiplier)

/-- The annotation appended by `compensate_line` when `log_changes` is
enabled (`" ; flow_comp{tag}: {flow:.1f}mm3/s x{mult:.3f}\n"`). -/
def flowCommentTag (s : CompState) (flow mult : ℚ) : List Char :=
  " ; flow_comp".toList ++
    (if 1 < (s.toolProfiles.map Prod.fst).length then ' ' :: 'T' :: natDigits s.activeTool
     else []) ++
    ": ".toList ++ fmtFixed 1 flow ++ "mm3/s x".toList ++ fmtFixed 3 mult ++ ['\n']

/-- `FlowCompensator.compensate_line(line, move_info)`. -/
def compensateLine (s : CompState) (line : List Char) (mv : MoveInfo) :
    Except String (List Char × CompState) :=
  match calcFlowRate s mv.extrusion mv.distance mv.feedrate with
  | .error e => .error e
  | .ok flow =>
      match lookupN s.stats s.activeTool with
      | none => .error "KeyError"
      | some st =>
          let st1 : ToolStats :=
            { st with totalMoves := st.totalMoves + 1,
                      totalFlow := st.totalFlow + flow,
                      minFlow := some (match st.minFlow with
                        | none => flow
                        | some m => min m flow),
                      maxFlow := max st.maxFlow flow }
          let mult := getCompensationMultiplier s flow
          let st2 : ToolStats :=
            { st1 with minMultiplier := some (match st1.minMultiplier with
                         | none => mult
                         | some m => min m mult),
                       maxMultiplier := max st1.maxMultiplier mult }
          if |mult - 1| < 1 / 1000 then
            .ok (line, { s with stats := insertN s.stats s.activeTool st2 })
          else
            let st3 := { st2 with compensatedMoves := st2.compensatedMoves + 1 }
            let rewritten := subE mult line
            let outLine := if logChangesD s.config then
                rstripWs rewritten ++ flowCommentTag s flow mult
              else rewritten
            .ok (outLine, { s with stats := insertN s.stats s.activeTool st3 })

/-! ## The tool-change handling of `main` (lines 545-553) -/

/-- `TOOL_CHANGE_PATTERN.match(line.strip())`: a leading `T` followed by
at least one digit (a maximal digit run). -/
def toolMatch (line : List Char) : Option Nat :=
  match stripWs line with
  | [] => none
  | a :: rest =>
      if a = 'T' ∧ (takeDigits rest).1 ≠ [] then some (natOfDigits (takeDigits rest).1)
      else none

/-- One iteration of the driver's tool-change check: switch the active
tool only when multi-material mode is on and the target tool is
configured; report whether the line was consumed. -/
def toolChangeStep (hasMulti : Bool) (s : CompState) (line : List Char) :
    CompState × Bool :=
  match toolMatch line with
  | some t =>
      if hasMulti ∧ (lookupN s.toolProfiles t).isSome then (setActiveTool s t, true)
      else (s, false)
  | none => (s, false)


/-! ## Interpolation endpoint lemmas -/

theorem hermite_left (x0 y0 d0 x1 y1 d1 : ℚ) : hermite x0 y0 d0 x1 y1 d1 x0 = y0 := by
  simp [hermite]

theorem hermite_right (x0 y0 d0 x1 y1 d1 : ℚ) (h : x0 ≠ x1) :
    hermite x0 y0 d0 x1 y1 d1 x1 = y1 := by
  have hne : x1 - x0 ≠ 0 := sub_ne_zero.mpr (Ne.symm h)
  rw [hermite]
  field_simp
  ring

theorem pchipEvalAux_headpt (p : ℚ × ℚ) (d : ℚ) (q : ℚ × ℚ) (rest : List (ℚ × ℚ))
    (ds : List ℚ) (hlt : p.1 < q.1) : pchipEvalAux p d (q :: rest) ds p.1 = p.2 := by
  rw [pchipEvalAux, if_pos (Or.inr hlt)]
  exact hermite_left _ _ _ _ _ _

/-- Evaluating at the first breakpoint returns the first value. -/
theorem pchipEval_headpt {p q : ℚ × ℚ} {rest : List (ℚ × ℚ)} (hlt : p.1 < q.1) :
    pchipEval (p :: q :: rest) p.1 = p.2 := by
  rw [pchipEval]
  exact pchipEvalAux_headpt _ _ _ _ _ hlt

theorem pchipEvalAux_lastpt {q : ℚ × ℚ} (rest : List (ℚ × ℚ)) :
    ∀ (p : ℚ × ℚ) (d : ℚ) (ds : List ℚ),
      List.Pairwise ltFst (p :: rest) → rest.getLast? = some q →
      pchipEvalAux p d rest ds q.1 = q.2 := by
  induction rest with
  | nil =>
      intro p d ds _ hl
      simp at hl
  | cons r rest2 ih =>
      intro p d ds hpw hl
      cases rest2 with
      | nil =>
          have hrq : r = q := by simpa using hl
          subst hrq
          rw [pchipEvalAux, if_pos (Or.inl rfl)]
          have hpq : p.1 < r.1 := (List.pairwise_cons.mp hpw).1 r (by simp)
          exact hermite_right _ _ _ _ _ _ (ne_of_lt hpq)
      | cons s rest3 =>
          have hl2 : (s :: rest3).getLast? = some q := by
            rw [List.getLast?_cons_cons] at hl
            exact hl
          have hqmem : q ∈ s :: rest3 := List.mem_of_mem_getLast? hl2
          have hpw2 : List.Pairwise ltFst (r :: s :: rest3) := (List.pairwise_cons.mp hpw).2
          have hrq : r.1 < q.1 := (List.pairwise_cons.mp hpw2).1 q hqmem
          rw [pchipEvalAux, if_neg (by
            push_neg
            exact ⟨by simp, le_of_lt hrq⟩)]
          exact ih r (ds.headD 0) ds.tail hpw2 hl2

/-- Evaluating at the last breakpoint returns the last value. -/
theorem pchipEval_lastpt {l : List (ℚ × ℚ)} {q : ℚ × ℚ}
    (hpw : List.Pairwise ltFst l) (hl : l.getLast? = some q) (hlen : 2 ≤ l.length) :
    pchipEval l q.1 = q.2 := by
  match l, hlen with
  | p :: r :: rest, _ =>
      rw [pchipEval]
      refine pchipEvalAux_lastpt (r :: rest) p _ _ hpw ?_
      rw [List.getLast?_cons_cons] at hl
      exact hl

/-! ## Sorting lemmas -/

theorem sortPts_perm (l : List (ℚ × ℚ)) : (sortPts l).Perm l :=
  List.mergeSort_perm l _

theorem sortPts_sorted (l : List (ℚ × ℚ)) :
    List.Pairwise (fun a b : ℚ × ℚ => a.1 ≤ b.1) (sortPts l) := by
  have h := @List.sorted_mergeSort (ℚ × ℚ) (fun p q : ℚ × ℚ => p.1 ≤ q.1)
    (fun a b c h1 h2 => by
      simp only [decide_eq_true_iff] at h1 h2 ⊢
      exact le_trans h1 h2)
    (fun a b => by simpa using le_total a.1 b.1)
    l
  exact h.imp (fun {a b} hab => by simpa using hab)

/-- With pairwise-distinct flow-rate coordinates the sorted control
points are strictly increasing. -/
theorem sortPts_strict {l : List (ℚ × ℚ)} (hnd : (l.map Prod.fst).Nodup) :
    List.Pairwise ltFst (sortPts l) := by
  have hnd2 : ((sortPts l).map Prod.fst).Nodup :=
    (((sortPts_perm l).map Prod.fst).nodup_iff).mpr hnd
  have hne : List.Pairwise (fun a b : ℚ × ℚ => a.1 ≠ b.1) (sortPts l) :=
    List.pairwise_map.mp hnd2
  exact ((sortPts_sorted l).and hne).imp (fun {a b} h => lt_of_le_of_ne h.1 h.2)

/-- Any two permutations of a control-point set with distinct flow-rate
coordinates sort identically: the sort is determined by the set. -/
theorem sortPts_eq_of_perm {l1 l2 : List (ℚ × ℚ)} (hp : l1.Perm l2)
    (hnd : (l1.map Prod.fst).Nodup) : sortPts l1 = sortPts l2 := by
  have hnd2 : (l2.map Prod.fst).Nodup := ((hp.map Prod.fst).nodup_iff).mp hnd
  exact List.eq_of_perm_of_sorted
    ((sortPts_perm l1).trans (hp.trans (sortPts_perm l2).symm))
    (sortPts_strict hnd) (sortPts_strict hnd2)

/-! ## Inversion lemmas for spline construction -/

theorem mkPchip_ok {pts res : List (ℚ × ℚ)} (h : mkPchip pts = .ok res) :
    res = pts ∧ List.Pairwise ltFst pts := by
  rw [mkPchip] at h
  split at h
  · rename_i hb
    refine ⟨by simpa using h.symm, ?_⟩
    exact List.chain'_iff_pairwise.mp ((strictIncB_iff pts).mp hb)
  · simp at h

theorem mkPchip_ok_of_pairwise {pts : List (ℚ × ℚ)} (h : List.Pairwise ltFst pts) :
    mkPchip pts = .ok pts := by
  rw [mkPchip, if_pos ((strictIncB_iff pts).mpr (List.chain'_iff_pairwise.mpr h))]

theorem buildSpline_ok {pr : MaterialProfile} {sp : List (ℚ × ℚ)}
    (h : buildSplineForProfile pr = .ok sp) :
    sp = sortPts pr.curvePoints ∧ List.Pairwise ltFst sp ∧ 2 ≤ sp.length := by
  rw [buildSplineForProfile] at h
  split at h
  · simp at h
  · rename_i hlen
    obtain ⟨rfl, hpw⟩ := mkPchip_ok h
    refine ⟨rfl, hpw, ?_⟩
    have hperm := (sortPts_perm pr.curvePoints).length_eq
    omega

/-! ## Locating the extreme control points -/

theorem head_eq_min {sp : List (ℚ × ℚ)} {c : ℚ × ℚ}
    (hpw : List.Pairwise ltFst sp) (hmem : c ∈ sp) (hmin : ∀ q ∈ sp, c.1 ≤ q.1) :
    sp.headD (0, 0) = c := by
  match sp, hmem with
  | p :: rest, hmem =>
      rcases List.mem_cons.mp hmem with rfl | hmem2
      · rfl
      · exfalso
        have h1 : p.1 < c.1 := (List.pairwise_cons.mp hpw).1 c hmem2
        exact absurd h1 (not_lt.mpr (hmin p (by simp)))

theorem last_eq_max {sp : List (ℚ × ℚ)} {c : ℚ × ℚ}
    (hpw : List.Pairwise ltFst sp) (hmem : c ∈ sp) (hmax : ∀ q ∈ sp, q.1 ≤ c.1) :
    sp.getLast? = some c := by
  induction sp with
  | nil => simp at hmem
  | cons p rest ih =>
      cases rest with
      | nil =>
          obtain rfl : c = p := by simpa using hmem
          simp
      | cons r rest2 =>
          rw [List.getLast?_cons_cons]
          have hpw2 := (List.pairwise_cons.mp hpw).2
          have hcm : c ∈ r :: rest2 := by
            rcases List.mem_cons.mp hmem with rfl | hmem2
            · exfalso
              have h1 : c.1 < r.1 := (List.pairwise_cons.mp hpw).1 r (by simp)
              exact absurd h1 (not_lt.mpr (hmax r (by simp [List.mem_cons])))
            · exact hmem2
          exact ih hpw2 hcm (fun q hq => hmax q (by simp [List.mem_cons] at hq ⊢; tauto))

theorem head_lt_last {p : ℚ × ℚ} {rest : List (ℚ × ℚ)} {c : ℚ × ℚ}
    (hpw : List.Pairwise ltFst (p :: rest)) (hl : (p :: rest).getLast? = some c)
    (hne : rest ≠ []) : p.1 < c.1 := by
  match rest, hne with
  | r :: rest2, _ =>
      rw [List.getLast?_cons_cons] at hl
      exact (List.pairwise_cons.mp hpw).1 c (List.mem_of_mem_getLast? hl)


/-! ## Association-list and engine unfolding lemmas -/

theorem lookupN_insertN {α : Type} (l : List (Nat × α)) (k : Nat) (v : α) :
    lookupN (insertN l k v) k = some v := by
  induction l with
  | nil => simp [insertN, lookupN]
  | cons p rest ih =>
      match p with
      | (k2, v2) =>
          rw [insertN]
          split
        
          · rename_i h
            rw [lookupN, if_pos h]
          · rename_i h
            rw [lookupN, if_neg h]
            exact ih

theorem getCompMult_unconfigured {s : CompState} (flow : ℚ)
    (h : lookupN s.toolProfiles s.activeTool = none) :
    getCompensationMultiplier s flow = 1 := by
  rw [getCompensationMultiplier, h]

theorem getCompMult_configured {s : CompState} {te : ToolEntry}
    (h : lookupN s.toolProfiles s.activeTool = some te) (flow : ℚ) :
    getCompensationMultiplier s flow =
      max (minCompD s.config) (min (maxCompD s.config)
        (pchipEval te.spline
          (if flow < (te.spline.headD (0, 0)).1 then (te.spline.headD (0, 0)).1
           else if flow > (te.spline.getLastD (0, 0)).1 then (te.spline.getLastD (0, 0)).1
           else flow))) := by
  rw [getCompensationMultiplier, h]

/-- The statistics entry written back by a successful `compensate_line`
call (everything except the compensated-move counter). -/
def bumpStats (st : ToolStats) (flow mult : ℚ) : ToolStats :=
  { st with totalMoves := st.totalMoves + 1,
            totalFlow := st.totalFlow + flow,
            minFlow := some (match st.minFlow with
              | none => flow
              | some m => min m flow),
            maxFlow := max st.maxFlow flow,
            minMultiplier := some (match st.minMultiplier with
              | none => mult
              | some m => min m mult),
            maxMultiplier := max st.maxMultiplier mult }

theorem compensateLine_eq {s : CompState} {line : List Char} {mv : MoveInfo}
    {flow : ℚ} {st : ToolStats}
    (hflow : calcFlowRate s mv.extrusion mv.distance mv.feedrate = .ok flow)
    (hst : lookupN s.stats s.activeTool = some st) :
    compensateLine s line mv =
      (let mult := getCompensationMultiplier s flow
       let st2 := bumpStats st flow mult
       let st3 := { st2 with compensatedMoves := st.compensatedMoves + 1 }
       if |mult - 1| < 1 / 1000 then
         .ok (line, { s with stats := insertN s.stats s.activeTool st2 })
       else
         .ok ((if logChangesD s.config then
             rstripWs (subE mult line) ++ flowCommentTag s flow mult
           else subE mult line),
           { s with stats := insertN s.stats s.activeTool st3 })) := by
  rw [compensateLine, hflow, hst]
  rfl


/-! ## Concrete configurations and states used by the claim instances -/

set_option maxRecDepth 4000

/-- An empty configuration (no materials, no output section). -/
def cfgEmpty : Config :=
  { materials := [], fallbackMaterial := none, output := none }

/-- A configuration whose safety band `[1.2, 1.5]` excludes 1.0. -/
def cfgBand : Config :=
  { materials := [], fallbackMaterial := none,
    output := some { minCompensation := some (12/10), maxCompensation := some (15/10),
                     logChanges := none } }

/-- A profile whose minimum-point multiplier 0.5 lies below the default
safety band. -/
def cfgLow : Config :=
  { materials := [("LOW", ⟨[(0, 1/2), (10, 2)]⟩)], fallbackMaterial := none, output := none }

/-- A two-point profile with multipliers inside the default band. -/
def prW : MaterialProfile := ⟨[(0, 1), (10, 3/2)]⟩

def teW : ToolEntry := ⟨"W", prW, [(0, 1), (10, 3/2)]⟩

def cfgW : Config :=
  { materials := [("W", prW)], fallbackMaterial := none, output := none }

/-- Tool 0 configured with `prW`, filament area unset. -/
def sW : CompState :=
  { config := cfgW, filamentDiameter := none, filamentArea := none,
    toolProfiles := [(0, teW)], activeTool := 0, stats := [(0, initToolStats)] }

/-! ## Claim C2 -/

/-- C2 (amended): whenever the active tool is configured and the safety
band is nonempty, the returned multiplier lies in
`[minCompensation, maxCompensation]`, whatever the raw interpolant
returns.  (For an unconfigured active tool the code returns 1.0 without
clamping, which can lie outside a configured band — see the
counterexample.) -/
theorem c2_band (s : CompState) (flow : ℚ) (te : ToolEntry)
    (hlk : lookupN s.toolProfiles s.activeTool = some te)
    (hband : minCompD s.config ≤ maxCompD s.config) :
    minCompD s.config ≤ getCompensationMultiplier s flow ∧
      getCompensationMultiplier s flow ≤ maxCompD s.config := by
  rw [getCompMult_configured hlk]
  exact ⟨le_max_left _ _, max_le hband (min_le_left _ _)⟩

/-- C2 counterexample: with the configured band `[1.2, 1.5]` and an
unconfigured active tool, `get_compensation_multiplier` returns 1.0,
which lies below the band — the claim's "regardless of engine state"
universal fails. -/
theorem c2_cex :
    getCompensationMultiplier (initState cfgBand) 7 = 1 ∧
      ¬ minCompD cfgBand ≤ getCompensationMultiplier (initState cfgBand) 7 := by
  constructor
  · with_unfolding_all decide
  · with_unfolding_all decide

theorem c2_witness :
    (8/10 : ℚ) ≤ getCompensationMultiplier sW 5 ∧ getCompensationMultiplier sW 5 ≤ 15/10 := by
  have h := c2_band sW 5 teW (by with_unfolding_all decide) (by with_unfolding_all decide)
  constructor
  · have e : minCompD sW.config = 8/10 := by with_unfolding_all decide
    exact e ▸ h.1
  · have e : maxCompD sW.config = 15/10 := by with_unfolding_all decide
    exact e ▸ h.2

/-! ## Claim C5 -/

/-- C5 (amended): through the driver's tool-change handling the active
tool changes only to configured tools: after one tool-change step the
active tool is either unchanged or refers to a configured profile.
(`set_active_tool` itself performs no validation — see the
counterexample.) -/
theorem c5_driver_switch (hasMulti : Bool) (s : CompState) (line : List Char) :
    (toolChangeStep hasMulti s line).1.activeTool = s.activeTool ∨
      (lookupN (toolChangeStep hasMulti s line).1.toolProfiles
        ((toolChangeStep hasMulti s line).1.activeTool)).isSome = true := by
  cases h : toolMatch line with
  | none =>
      left
      rw [toolChangeStep, h]
  | some t =>
      simp only [toolChangeStep, h]
      split
      · rename_i hcond
        right
        simpa [setActiveTool] using hcond.2
      · left
        rfl

/-- C5 counterexample: `set_active_tool` accepts an unconfigured tool id
and switches anyway, so the invariant "the active tool always refers to
an already-configured ToolState" fails for the engine interface. -/
theorem c5_cex :
    (setActiveTool (initState cfgEmpty) 1).activeTool = 1 ∧
      lookupN (setActiveTool (initState cfgEmpty) 1).toolProfiles 1 = none := by
  constructor
  · rfl
  · rfl

/-! ## Claim C6 -/

/-- C6 (amended): when the active tool has no configured response curve,
`get_compensation_multiplier` returns 1.0 for every flow rate; and —
provided the active tool has a statistics record, as tool 0 does from
construction — `compensate_line` returns the line unchanged and leaves
the compensated-move counter unchanged.  (Without a statistics record
`compensate_line` fails instead — see the counterexample and C7.) -/
theorem c6_unconfigured (s : CompState) (flow : ℚ) (line : List Char) (mv : MoveInfo)
    (st : ToolStats)
    (hun : lookupN s.toolProfiles s.activeTool = none) :
    getCompensationMultiplier s flow = 1 ∧
    (lookupN s.stats s.activeTool = some st →
     calcFlowRate s mv.extrusion mv.distance mv.feedrate = .ok flow →
      ∃ s2, compensateLine s line mv = .ok (line, s2) ∧
        (lookupN s2.stats s.activeTool).map ToolStats.compensatedMoves
          = some st.compensatedMoves) := by
  refine ⟨getCompMult_unconfigured flow hun, fun hst hflow => ?_⟩
  rw [compensateLine_eq hflow hst]
  rw [getCompMult_unconfigured flow hun]
  rw [if_pos (by norm_num)]
  refine ⟨_, rfl, ?_⟩
  rw [lookupN_insertN]
  rfl

/-- C6 counterexample: with the active tool switched to the unconfigured
tool 2 (which has no statistics record), `compensate_line` raises a
`KeyError` instead of passing the line through. -/
theorem c6_cex :
    compensateLine (setActiveTool (initState cfgEmpty) 2) ("G1 X2 E3".toList ++ ['\n'])
      ⟨3, 0, 1200⟩ = .error "KeyError" := by
  with_unfolding_all decide

theorem c6_witness :
    getCompensationMultiplier (initState cfgEmpty) 42 = 1 ∧
    ∃ s2, compensateLine (initState cfgEmpty) ("G1 X1 E2".toList ++ ['\n']) ⟨2, 0, 900⟩
        = .ok (("G1 X1 E2".toList ++ ['\n']), s2) ∧
      (lookupN s2.stats 0).map ToolStats.compensatedMoves = some 0 := by
  constructor
  · exact (c6_unconfigured (initState cfgEmpty) 42 [] ⟨0, 0, 0⟩ initToolStats
      (by with_unfolding_all decide)).1
  · have h := (c6_unconfigured (initState cfgEmpty) 0 ("G1 X1 E2".toList ++ ['\n'])
      ⟨2, 0, 900⟩ initToolStats (by with_unfolding_all decide)).2
      (by with_unfolding_all decide) (by with_unfolding_all decide)
    simpa using h

/-! ## Claim C7 -/

theorem initStats_isSome (s : CompState) (n : Nat) :
    (lookupN (initStatsForTool s n).stats n).isSome = true := by
  rw [initStatsForTool]
  split
  · rename_i h
    exact h
  · simp [lookupN_insertN]

/-- C7: a statistics record exists for tool 0 from construction; for any
other tool the fresh engine has none, and configuring a tool creates its
record; consequently the reachable state "active tool set to the
unconfigured tool 1" makes `compensate_line` fail with a key-lookup
error rather than return the line. -/
theorem c7_stats_lifecycle :
    (∀ c : Config, lookupN (initState c).stats 0 = some initToolStats) ∧
    (∀ (c : Config) (n : Nat), n ≠ 0 → lookupN (initState c).stats n = none) ∧
    (∀ (s : CompState) (m : Option String) (n : Nat) (s2 : CompState),
      loadMaterialProfile s m n = .ok s2 → (lookupN s2.stats n).isSome = true) ∧
    compensateLine (setActiveTool (initState cfgEmpty) 1) ("G1 X1 E5".toList ++ ['\n'])
      ⟨5, 0, 3000⟩ = .error "KeyError" := by
  refine ⟨fun c => rfl, fun c n hn => ?_, fun s m n s2 h => ?_, ?_⟩
  · simp [initState, initStatsForTool, lookupN, insertN, Ne.symm hn]
  · rw [loadMaterialProfile.eq_def] at h
    dsimp only at h
    repeat' split at h
    all_goals first
      | (rw [Except.ok.injEq] at h
         subst h
         exact initStats_isSome _ n)
      | exact absurd h (by simp)
  · with_unfolding_all decide

theorem c7_witness : lookupN (initState cfgEmpty).stats 5 = none :=
  c7_stats_lifecycle.2.1 cfgEmpty 5 (by norm_num)


/-! ## Claim C1 -/

theorem pchipEval_at_head {l : List (ℚ × ℚ)} {c : ℚ × ℚ}
    (hpw : List.Pairwise ltFst l) (hh : l.headD (0, 0) = c) (hlen : 2 ≤ l.length) :
    pchipEval l c.1 = c.2 := by
  match l, hlen with
  | p :: q :: rest, _ =>
      obtain rfl : p = c := hh
      exact pchipEval_headpt ((List.pairwise_cons.mp hpw).1 q (by simp))

/-- C1 (amended): for a configured active tool whose response curve was
built from control points whose minimum is `(xm, ym)` and maximum is
`(xM, yM)`, `get_compensation_multiplier` returns the safety-band clamp
of `ym` for every flow rate at or below `xm` and the safety-band clamp
of `yM` for every flow rate at or above `xM`.  (The claim's "exactly
ym"/"exactly yM" holds only when those multipliers already lie inside
the band — the counterexample shows the band clipping them
otherwise.) -/
theorem c1_clamp_band (s : CompState) (te : ToolEntry) (xm ym xM yM flow : ℚ)
    (hlk : lookupN s.toolProfiles s.activeTool = some te)
    (hb : buildSplineForProfile te.profile = .ok te.spline)
    (hmemL : (xm, ym) ∈ te.profile.curvePoints)
    (hminL : ∀ q ∈ te.profile.curvePoints, xm ≤ q.1)
    (hmemR : (xM, yM) ∈ te.profile.curvePoints)
    (hmaxR : ∀ q ∈ te.profile.curvePoints, q.1 ≤ xM) :
    (flow ≤ xm → getCompensationMultiplier s flow
        = max (minCompD s.config) (min (maxCompD s.config) ym)) ∧
    (xM ≤ flow → getCompensationMultiplier s flow
        = max (minCompD s.config) (min (maxCompD s.config) yM)) := by
  obtain ⟨hsp, hpw, hlen⟩ := buildSpline_ok hb
  have hperm : te.spline.Perm te.profile.curvePoints := by
    rw [hsp]
    exact sortPts_perm _
  have hmemL2 : (xm, ym) ∈ te.spline := hperm.mem_iff.mpr hmemL
  have hminL2 : ∀ q ∈ te.spline, xm ≤ q.1 := fun q hq => hminL q (hperm.mem_iff.mp hq)
  have hmemR2 : (xM, yM) ∈ te.spline := hperm.mem_iff.mpr hmemR
  have hmaxR2 : ∀ q ∈ te.spline, q.1 ≤ xM := fun q hq => hmaxR q (hperm.mem_iff.mp hq)
  have hhead : te.spline.headD (0, 0) = (xm, ym) := head_eq_min hpw hmemL2 hminL2
  have hlast : te.spline.getLast? = some (xM, yM) := last_eq_max hpw hmemR2 hmaxR2
  have hlastD : te.spline.getLastD (0, 0) = (xM, yM) := by
    rw [List.getLastD_eq_getLast?, hlast]
    rfl
  have hxmM : xm < xM := by
    match hcons : te.spline, hlen with
    | p :: q :: rest, _ =>
        rw [hcons] at hpw hlast hhead
        obtain rfl : p = (xm, ym) := hhead
        exact head_lt_last hpw hlast (by simp)
  have hevalHead : pchipEval te.spline xm = ym := pchipEval_at_head hpw hhead hlen
  have hevalLast : pchipEval te.spline xM = yM := pchipEval_lastpt hpw hlast hlen
  constructor
  · intro hflow
    rw [getCompMult_configured hlk, hhead, hlastD]
    have hcl : (if flow < (xm, ym).1 then (xm, ym).1
        else if flow > (xM, yM).1 then (xM, yM).1 else flow) = xm := by
      rcases eq_or_lt_of_le hflow with heq | hlt
      · subst heq
        rw [if_neg (lt_irrefl _), if_neg (not_lt.mpr (le_of_lt hxmM))]
      · rw [if_pos hlt]
    rw [hcl, hevalHead]
  · intro hflow
    rw [getCompMult_configured hlk, hhead, hlastD]
    have hcl : (if flow < (xm, ym).1 then (xm, ym).1
        else if flow > (xM, yM).1 then (xM, yM).1 else flow) = xM := by
      rw [if_neg (not_lt.mpr (le_trans (le_of_lt hxmM) hflow))]
      rcases eq_or_lt_of_le hflow with heq | hlt
      · subst heq
        rw [if_neg (lt_irrefl _)]
      · rw [if_pos hlt]
    rw [hcl, hevalLast]

/-- C1 counterexample: with control points `[(0, 0.5), (10, 2)]` and the
default safety band, the multiplier at flow rate 0 (at the minimum
control point) is 0.8 — the band clamp — not the control point's 0.5. -/
theorem c1_cex :
    (loadMaterialProfile (initState cfgLow) (some "LOW") 0).map
      (fun s => getCompensationMultiplier s 0) = .ok (4/5) ∧ (4/5 : ℚ) ≠ 1/2 := by
  constructor
  · with_unfolding_all decide
  · with_unfolding_all decide

theorem c1_witness : getCompensationMultiplier sW (-5) = 1 := by
  have h := (c1_clamp_band sW teW 0 1 10 (3/2) (-5)
    (by with_unfolding_all decide) (by with_unfolding_all decide)
    (by with_unfolding_all decide) (by with_unfolding_all decide)
    (by with_unfolding_all decide) (by with_unfolding_all decide)).1 (by norm_num)
  rw [h]
  with_unfolding_all decide

/-! ## Claim C3 -/

/-- C3: `calculate_flow_rate` returns 0 whenever the distance is 0; for
nonzero distances it returns `extrusion * filamentArea / distance *
feedrate / 60` with `filamentArea = π (diameter/2)²` stored by
`set_filament_diameter` (π being the value of `math.pi`); with diameter
1.75 the area is within 1e-4 of 2.4053, and the flow rate of the
(5.55 mm, 10 mm, 3000 mm/min) example is within 0.1 of 66.7 mm³/s. -/
theorem c3_flow_rate :
    (∀ (s : CompState) (e f : ℚ), calcFlowRate s e 0 f = .ok 0) ∧
    (∀ (s : CompState) (e d f a : ℚ), d ≠ 0 → s.filamentArea = some a →
      calcFlowRate s e d f = .ok (e * a / d * f / 60)) ∧
    (∀ (s : CompState) (d : ℚ),
      (setFilamentDiameter s d).filamentArea = some (mathPi * (d / 2) ^ 2)) ∧
    |mathPi * (7/4 / 2) ^ 2 - 24053/10000| < 1/10000 ∧
    (∀ s : CompState, ∃ q : ℚ,
      calcFlowRate (setFilamentDiameter s (7/4)) (111/20) 10 3000 = .ok q ∧
        |q - 667/10| < 1/10) := by
  refine ⟨fun s e f => ?_, fun s e d f a hd ha => ?_, fun s d => rfl, ?_, fun s => ?_⟩
  · rw [calcFlowRate, if_pos rfl]
  · rw [calcFlowRate, if_neg hd, ha]
  · with_unfolding_all decide
  · refine ⟨111/20 * (mathPi * (7/4 / 2) ^ 2) / 10 * 3000 / 60, ?_, ?_⟩
    · rw [calcFlowRate, if_neg (by norm_num)]
      rfl
    · with_unfolding_all decide

theorem c3_witness :
    calcFlowRate (setFilamentDiameter (initState cfgEmpty) 2) 3 2 60
      = .ok (3 * (mathPi * (2 / 2) ^ 2) / 2 * 60 / 60) :=
  c3_flow_rate.2.1 _ 3 2 60 (mathPi * (2 / 2) ^ 2) (by norm_num)
    (c3_flow_rate.2.2.1 _ 2)

/-! ## Claim C4 -/

/-- C4 (amended): `parse_move` recognises exactly the lines whose first
two characters are `G` followed by `0` or `1` — which covers `G0`/`G1`
but also longer opcodes such as `G10`, `G11` or `G02` (see the
counterexample).  Every other line returns no move descriptor with
position and feed rate unchanged; a recognised line with no extrusion
field or an extrusion value of exactly 0 returns no move descriptor but
still applies the line's feed-rate and axis fields. -/
theorem c4_parse_move (line : List Char) (pos : Pos) (fr : ℚ) :
    (matchG01 line = false → parseMove line pos fr = (none, pos, fr)) ∧
    (matchG01 line = true →
      (searchNum 'E' line = none ∨ (∃ p m t, searchNum 'E' line = some (p, m, 0, t)) →
        parseMove line pos fr =
          (none, applyAxes pos (findAllXYZ line),
            match searchNum 'F' line with
            | some (_, _, v, _) => v
            | none => fr))) := by
  constructor
  · intro h
    rw [parseMove, if_pos (by simp [h])]
  · intro h hE
    rw [parseMove, if_neg (by simp [h])]
    rcases hE with hnone | ⟨p, m, t, hsome⟩
    · rw [hnone]
    · rw [hsome]
      simp

/-- C4 counterexample: the line `G10 X5 E2` carries the opcode `G10`
(firmware retract), not `G0`/`G1`, yet `parse_move` treats it as a move:
it returns a move descriptor and updates the position. -/
theorem c4_cex :
    matchG01 "G10 X5 E2".toList = true ∧
    ((parseMove "G10 X5 E2".toList ⟨0, 0, 0, 0⟩ 0).1).isSome = true ∧
    (parseMove "G10 X5 E2".toList ⟨0, 0, 0, 0⟩ 0).2.1.x = 5 := by
  refine ⟨?_, ?_, ?_⟩
  · with_unfolding_all decide
  · with_unfolding_all decide
  · with_unfolding_all decide

theorem c4_witness :
    parseMove "M204 X5".toList ⟨0, 0, 0, 0⟩ 7 = (none, ⟨0, 0, 0, 0⟩, 7) :=
  (c4_parse_move "M204 X5".toList ⟨0, 0, 0, 0⟩ 7).1 (by with_unfolding_all decide)

/-! ## Claim C8 -/

/-- C8: `_build_spline_for_profile` fails whenever fewer than two control
points are supplied, and whenever two control points share a flow-rate
coordinate (the sorted breakpoints are then not strictly increasing, the
`PchipInterpolator` validation); any at-least-two points with pairwise
distinct flow rates build successfully after sorting ascending by flow
rate, and any two orderings of such a point set build the same curve. -/
theorem c8_build_contract :
    (∀ pr : MaterialProfile, pr.curvePoints.length < 2 →
      buildSplineForProfile pr = .error "At least 2 curve points required for interpolation") ∧
    (∀ pr : MaterialProfile, ¬ (pr.curvePoints.map Prod.fst).Nodup →
      buildSplineForProfile pr = .error "x must be strictly increasing") ∧
    (∀ pr : MaterialProfile, 2 ≤ pr.curvePoints.length →
      (pr.curvePoints.map Prod.fst).Nodup →
      buildSplineForProfile pr = .ok (sortPts pr.curvePoints)) ∧
    (∀ pr1 pr2 : MaterialProfile, pr1.curvePoints.Perm pr2.curvePoints →
      (pr1.curvePoints.map Prod.fst).Nodup →
      buildSplineForProfile pr1 = buildSplineForProfile pr2) := by
  have hok : ∀ pr : MaterialProfile, 2 ≤ pr.curvePoints.length →
      (pr.curvePoints.map Prod.fst).Nodup →
      buildSplineForProfile pr = .ok (sortPts pr.curvePoints) := by
    intro pr hlen hnd
    rw [buildSplineForProfile, if_neg (not_lt.mpr hlen)]
    exact mkPchip_ok_of_pairwise (sortPts_strict hnd)
  refine ⟨fun pr h => ?_, fun pr hnd => ?_, hok, fun pr1 pr2 hp hnd => ?_⟩
  · rw [buildSplineForProfile, if_pos h]
  · have hlen : ¬ pr.curvePoints.length < 2 := by
      intro hl
      apply hnd
      rcases hc : pr.curvePoints with - | ⟨a, - | ⟨b, rest⟩⟩
      · simp
      · simp
      · exfalso
        rw [hc] at hl
        simp only [List.length_cons] at hl
        omega
    rw [buildSplineForProfile, if_neg hlen, mkPchip, if_neg ?hne]
    case hne =>
      intro htrue
      apply hnd
      have hpw := List.chain'_iff_pairwise.mp ((strictIncB_iff _).mp htrue)
      have hnd2 : ((sortPts pr.curvePoints).map Prod.fst).Nodup :=
        List.pairwise_map.mpr (hpw.imp (fun {a b} hab => ne_of_lt hab))
      exact ((sortPts_perm pr.curvePoints).map Prod.fst).nodup_iff.mp hnd2
  · have hnd2 : (pr2.curvePoints.map Prod.fst).Nodup := ((hp.map Prod.fst).nodup_iff).mp hnd
    rcases lt_or_le pr1.curvePoints.length 2 with hl | hl
    · have hl2 : pr2.curvePoints.length < 2 := by
        have := hp.length_eq
        omega
      simp only [buildSplineForProfile, if_pos hl, if_pos hl2]
    · have hl2 : 2 ≤ pr2.curvePoints.length := by
        have := hp.length_eq
        omega
      rw [hok pr1 hl hnd, hok pr2 hl2 hnd2, sortPts_eq_of_perm hp hnd]

theorem c8_witness :
    buildSplineForProfile ⟨[(10, 1), (0, 2)]⟩ = .ok (sortPts [(10, 1), (0, 2)]) :=
  c8_build_contract.2.2.1 ⟨[(10, 1), (0, 2)]⟩ (by norm_num)
    (by with_unfolding_all decide)


/-! ## Claim C9 -/

theorem subE_none {mult : ℚ} {line : List Char} (h : searchNum 'E' line = none) :
    subE mult line = line := by
  rw [subE.eq_def]
  split
  · rfl
  · rename_i p2 m2 v2 t2 h2
    rw [h] at h2
    cases h2

theorem subE_some {mult : ℚ} {line p m t : List Char} {v : ℚ}
    (h : searchNum 'E' line = some (p, m, v, t)) :
    subE mult line = p ++ fmtE (v * mult) ++ subE mult t := by
  rw [subE.eq_def]
  split
  · rename_i h2
    rw [h] at h2
    cases h2
  · rename_i p2 m2 v2 t2 h2
    rw [h] at h2
    obtain ⟨rfl, rfl, rfl, rfl⟩ : p2 = p ∧ m2 = m ∧ v2 = v ∧ t2 = t := by
      simpa using h2.symm
    rfl

/-- Replacing the only `E`-field match leaves every other character of
the line unchanged. -/
theorem subE_single {mult : ℚ} {line p m t : List Char} {v : ℚ}
    (hfind : searchNum 'E' line = some (p, m, v, t)) (hone : searchNum 'E' t = none) :
    subE mult line = p ++ fmtE (v * mult) ++ t := by
  rw [subE_some hfind, subE_none hone]

/-- C9 (amended): for a rewritten line containing exactly one match of
the extrusion pattern, with annotation disabled, the output differs from
the input only in that field: the input decomposes as
`p ++ 'E' :: numeral ++ t` and the output is exactly
`p ++ (rewritten field) ++ t`.  (When a line contains further matches of
the pattern — e.g. inside a comment — `re.sub` rewrites them all, and
when annotation is enabled trailing whitespace is stripped before the
comment is appended; see the counterexample.) -/
theorem c9_rewrite (s : CompState) (line p m t : List Char) (v flow : ℚ) (mv : MoveInfo)
    (st : ToolStats)
    (hst : lookupN s.stats s.activeTool = some st)
    (hflow : calcFlowRate s mv.extrusion mv.distance mv.feedrate = .ok flow)
    (hlog : logChangesD s.config = false)
    (hfind : searchNum 'E' line = some (p, m, v, t))
    (hone : searchNum 'E' t = none)
    (hmul : ¬ |getCompensationMultiplier s flow - 1| < 1 / 1000) :
    line = p ++ 'E' :: (m ++ t) ∧
    ∃ s2, compensateLine s line mv =
      .ok (p ++ fmtE (v * getCompensationMultiplier s flow) ++ t, s2) := by
  refine ⟨searchNum_decomp hfind,
    { s with stats := insertN s.stats s.activeTool ({ bumpStats st flow (getCompensationMultiplier s flow) with compensatedMoves := st.compensatedMoves + 1 }) }, ?_⟩
  rw [compensateLine_eq hflow hst]
  dsimp only
  rw [if_neg hmul]
  rw [if_neg (by rw [hlog]; exact Bool.false_ne_true)]
  rw [subE_single hfind hone]

/-- Configuration with a constant-1.5 curve and annotation disabled. -/
def cfg15 : Config :=
  { materials := [("C15", ⟨[(0, 3/2), (10, 3/2)]⟩)], fallbackMaterial := none,
    output := some { minCompensation := none, maxCompensation := none,
                     logChanges := some false } }

/-- C9 counterexample: `EXTRUSION_PATTERN.sub` replaces every match, so
on the move line `G1 E10 ; E10` — whose comment itself contains an
E-numeral — the comment is rewritten too: the output is
`G1 E15 ; E15`, not `G1 E15 ; E10`, so a character of the line outside
the single extrusion field (inside the existing comment) is changed. -/
theorem c9_cex :
    ((loadMaterialProfile (initState cfg15) (some "C15") 0).bind
      (fun s => (compensateLine s ("G1 E10 ; E10".toList ++ ['\n'])
        ⟨10, 0, 3000⟩).map Prod.fst))
      = .ok ("G1 E15 ; E15".toList ++ ['\n']) ∧
    ("G1 E15 ; E15".toList ++ ['\n']) ≠ ("G1 E15 ; E10".toList ++ ['\n']) := by
  constructor
  · with_unfolding_all decide
  · with_unfolding_all decide

def te15 : ToolEntry := ⟨"C15", ⟨[(0, 3/2), (10, 3/2)]⟩, [(0, 3/2), (10, 3/2)]⟩

/-- Tool 0 configured with the constant-1.5 curve, annotation disabled. -/
def s15 : CompState :=
  { config := cfg15, filamentDiameter := none, filamentArea := none,
    toolProfiles := [(0, te15)], activeTool := 0, stats := [(0, initToolStats)] }

theorem c9_witness :
    ∃ s2, compensateLine s15 ("G1 E10".toList ++ ['\n']) ⟨10, 0, 3000⟩ =
      .ok ("G1 ".toList ++ fmtE (10 * getCompensationMultiplier s15 0) ++ ['\n'], s2) := by
  exact (c9_rewrite s15 ("G1 E10".toList ++ ['\n']) "G1 ".toList "10".toList ['\n'] 10 0
    ⟨10, 0, 3000⟩ initToolStats (by with_unfolding_all decide)
    (by with_unfolding_all decide) (by with_unfolding_all decide)
    (by with_unfolding_all decide) (by with_unfolding_all decide)
    (by with_unfolding_all decide)).2


/-! ## Claim C10: decimal printing and reparsing -/

theorem digitVal_digitCh (n : Nat) : digitVal (digitCh n) = n % 10 := by
  rw [digitCh]
  have h : n % 10 < 10 := Nat.mod_lt _ (by norm_num)
  generalize hk : n % 10 = k at *
  interval_cases k <;> rfl

theorem isDigitCh_digitCh (n : Nat) : isDigitCh (digitCh n) = true := by
  rw [digitCh]
  have h : n % 10 < 10 := Nat.mod_lt _ (by norm_num)
  generalize hk : n % 10 = k at *
  interval_cases k <;> rfl

theorem natOfDigits_foldl (a : Nat) (l : List Char) :
    l.foldl (fun b c => 10 * b + digitVal c) a = a * 10 ^ l.length + natOfDigits l := by
  induction l generalizing a with
  | nil => simp [natOfDigits]
  | cons c rest ih =>
      rw [List.foldl_cons]
      rw [ih (10 * a + digitVal c)]
      have hr : natOfDigits (c :: rest) = digitVal c * 10 ^ rest.length + natOfDigits rest := by
        rw [natOfDigits, List.foldl_cons]
        simpa [natOfDigits] using ih (10 * 0 + digitVal c)
      rw [hr]
      simp only [List.length_cons, pow_succ]
      ring

theorem natOfDigits_append (l1 l2 : List Char) :
    natOfDigits (l1 ++ l2) = natOfDigits l1 * 10 ^ l2.length + natOfDigits l2 := by
  rw [natOfDigits, List.foldl_append]
  exact natOfDigits_foldl _ l2

theorem natOfDigits_replicate_zero (k : Nat) :
    natOfDigits (List.replicate k '0') = 0 := by
  induction k with
  | zero => rfl
  | succ k ih =>
      rw [List.replicate_succ, natOfDigits, List.foldl_cons]
      simpa [digitVal, natOfDigits] using ih

theorem natDigitsAux_spec (fuel : Nat) : ∀ n, n < 10 ^ fuel → fuel ≠ 0 →
    natOfDigits (natDigitsAux fuel n) = n ∧
    (∀ c ∈ natDigitsAux fuel n, isDigitCh c = true) ∧ natDigitsAux fuel n ≠ [] := by
  induction fuel with
  | zero => intro n _ hf; exact absurd rfl hf
  | succ f ih =>
      intro n hn _
      rw [natDigitsAux]
      by_cases hsmall : n < 10
      · rw [if_pos hsmall]
        refine ⟨?_, ?_, by simp⟩
        · have : natOfDigits [digitCh n] = n % 10 := by
            simp [natOfDigits, digitVal_digitCh]
          rw [this, Nat.mod_eq_of_lt hsmall]
        · intro c hc
          obtain rfl : c = digitCh n := by simpa using hc
          exact isDigitCh_digitCh n
      · rw [if_neg hsmall]
        have hf : f ≠ 0 := by
          intro hf0
          rw [hf0] at hn
          omega
        have hn10 : n / 10 < 10 ^ f := by
          rw [pow_succ] at hn
          exact Nat.div_lt_of_lt_mul (by omega)
        obtain ⟨hval, hdig, -⟩ := ih (n / 10) hn10 hf
        refine ⟨?_, ?_, by simp⟩
        · rw [natOfDigits_append, hval]
          have : natOfDigits [digitCh n] = n % 10 := by
            simp [natOfDigits, digitVal_digitCh]
          rw [this]
          simp only [List.length_singleton, pow_one]
          omega
        · intro c hc
          rcases List.mem_append.mp hc with hc2 | hc2
          · exact hdig c hc2
          · obtain rfl : c = digitCh n := by simpa using hc2
            exact isDigitCh_digitCh n

theorem natDigits_spec (n : Nat) :
    natOfDigits (natDigits n) = n ∧
    (∀ c ∈ natDigits n, isDigitCh c = true) ∧ natDigits n ≠ [] :=
  natDigitsAux_spec (n + 1) n
    (lt_of_lt_of_le (Nat.lt_pow_self (by norm_num) n)
      (Nat.pow_le_pow_right (by norm_num) (by omega))) (by omega)

theorem natDigitsAux_len (fuel : Nat) : ∀ n k, n < 10 ^ k → 1 ≤ k →
    (natDigitsAux fuel n).length ≤ k := by
  induction fuel with
  | zero => intro n k _ _; simp [natDigitsAux]
  | succ f ih =>
      intro n k hn hk
      rw [natDigitsAux]
      by_cases hsmall : n < 10
      · rw [if_pos hsmall]
        simpa using hk
      · rw [if_neg hsmall]
        have hk2 : 2 ≤ k := by
          by_contra hlt
          have : k = 1 := by omega
          rw [this] at hn
          simp at hn
          omega
        have hn10 : n / 10 < 10 ^ (k - 1) := by
          have : 10 ^ k = 10 * 10 ^ (k - 1) := by
            conv_lhs => rw [show k = 1 + (k - 1) by omega]
            rw [pow_add, pow_one]
          rw [this] at hn
          exact Nat.div_lt_of_lt_mul (by omega)
        have := ih (n / 10) (k - 1) hn10 (by omega)
        rw [List.length_append]
        simp only [List.length_singleton]
        omega

theorem natDigits_len {n k : Nat} (h : n < 10 ^ k) (hk : 1 ≤ k) :
    (natDigits n).length ≤ k :=
  natDigitsAux_len (n + 1) n k h hk

theorem natDigitsPad_val (k n : Nat) : natOfDigits (natDigitsPad k n) = n := by
  rw [natDigitsPad, natOfDigits_append, natOfDigits_replicate_zero, (natDigits_spec n).1]
  ring

theorem natDigitsPad_len {k n : Nat} (h : n < 10 ^ k) (hk : 1 ≤ k) :
    (natDigitsPad k n).length = k := by
  rw [natDigitsPad, List.length_append, List.length_replicate]
  have := natDigits_len h hk
  omega

theorem natDigitsPad_digits (k n : Nat) :
    ∀ c ∈ natDigitsPad k n, isDigitCh c = true := by
  intro c hc
  rcases List.mem_append.mp hc with hc2 | hc2
  · obtain rfl : c = '0' := by simpa using (List.eq_of_mem_replicate hc2)
    rfl
  · exact (natDigits_spec n).2.1 c hc2


/-! ### `rstrip` lemmas -/

theorem rstripCh_nil (c : Char) : rstripCh c [] = [] := rfl

theorem rstripCh_cons {c a : Char} (l : List Char) (h : a ≠ c) :
    rstripCh c (a :: l) = a :: rstripCh c l := by
  rw [rstripCh, rstripCh, List.reverse_cons, List.dropWhile_append]
  split
  · rename_i hemp
    rw [List.dropWhile_cons_of_neg (by simpa using h)]
    have : List.dropWhile (fun b => b = c) l.reverse = [] := by
      simpa using hemp
    simp [this]
  · simp

theorem rstripCh_append {c : Char} (A : List Char) {B : List Char}
    (h : rstripCh c B ≠ []) :
    rstripCh c (A ++ B) = A ++ rstripCh c B := by
  rw [rstripCh, List.reverse_append, List.dropWhile_append]
  have hne : ¬ (List.dropWhile (fun b => b = c) B.reverse).isEmpty = true := by
    intro hemp
    apply h
    rw [rstripCh]
    simp only [List.isEmpty_iff] at hemp
    rw [hemp]
    rfl
  rw [if_neg hne]
  rw [List.reverse_append, List.reverse_reverse]
  rw [rstripCh]

theorem rstripCh_replicate (c : Char) (k : Nat) :
    rstripCh c (List.replicate k c) = [] := by
  rw [rstripCh, List.reverse_replicate]
  have : List.dropWhile (fun b => b = c) (List.replicate k c) = [] := by
    induction k with
    | zero => rfl
    | succ k ih =>
        rw [List.replicate_succ, List.dropWhile_cons_of_pos (by simp)]
        exact ih
  rw [this]
  rfl

theorem rstripCh_all_ne {c : Char} {l : List Char} (h : ∀ d ∈ l, d ≠ c) :
    rstripCh c l = l := by
  rw [rstripCh]
  cases hrev : l.reverse with
  | nil =>
      have : l = [] := by simpa using congrArg List.reverse hrev
      simp [this]
  | cons a t =>
      have ha : a ∈ l := by
        have : a ∈ l.reverse := by
          rw [hrev]
          simp
        simpa using this
      rw [List.dropWhile_cons_of_neg (by simpa using h a ha)]
      rw [← hrev, List.reverse_reverse]

theorem rstripCh_decomp (c : Char) (l : List Char) :
    ∃ z, l = rstripCh c l ++ List.replicate z c := by
  refine ⟨(List.takeWhile (fun b => b = c) l.reverse).length, ?_⟩
  have hsplit := List.takeWhile_append_dropWhile (fun b => b = c) l.reverse
  have hrep : List.takeWhile (fun b => b = c) l.reverse
      = List.replicate (List.takeWhile (fun b => b = c) l.reverse).length c := by
    apply List.eq_replicate_of_mem
    intro b hb
    simpa using List.mem_takeWhile_imp hb
  conv_lhs => rw [← List.reverse_reverse l, ← hsplit]
  rw [List.reverse_append, rstripCh]
  rw [hrep, List.reverse_replicate]
  simp

theorem rstripCh_subset {c : Char} {l : List Char} :
    ∀ d ∈ rstripCh c l, d ∈ l := by
  intro d hd
  obtain ⟨z, hz⟩ := rstripCh_decomp c l
  rw [hz]
  exact List.mem_append.mpr (Or.inl hd)

theorem rstripCh_getLast_ne {c : Char} {l : List Char} {d : Char}
    (h : (rstripCh c l).getLast? = some d) : d ≠ c := by
  rw [rstripCh, List.getLast?_reverse] at h
  have : ∀ (p : Char → Bool) (t : List Char) (d : Char),
      (t.dropWhile p).head? = some d → p d = false := by
    intro p t
    induction t with
    | nil => intro d h2; simp at h2
    | cons a rest ih =>
        intro d h2
        by_cases hpa : p a = true
        · rw [List.dropWhile_cons_of_pos hpa] at h2
          exact ih d h2
        · rw [List.dropWhile_cons_of_neg hpa] at h2
          obtain rfl : a = d := by simpa using h2
          simpa using hpa
  have hres := this (fun b => b = c) l.reverse d h
  simpa using hres

theorem rstripCh_eq_self_of_getLast {c : Char} {l : List Char} {d : Char}
    (hl : l.getLast? = some d) (hd : d ≠ c) : rstripCh c l = l := by
  rw [rstripCh]
  cases hrev : l.reverse with
  | nil =>
      have : l = [] := by simpa using congrArg List.reverse hrev
      simp [this]
  | cons a t =>
      have ha : a = d := by
        have h1 := List.head?_reverse l
        rw [hrev] at h1
        simp only [List.head?_cons] at h1
        exact Option.some_injective _ (h1.trans hl)
      rw [List.dropWhile_cons_of_neg (by simp [ha]; exact hd)]
      rw [← hrev, List.reverse_reverse]


/-! ### Parsing canonical numerals -/

theorem isDigitCh_ne_dot {d : Char} (h : isDigitCh d = true) : d ≠ '.' := by
  intro heq
  subst heq
  exact absurd h (by decide)

theorem isDigitCh_ne_dash {d : Char} (h : isDigitCh d = true) : d ≠ '-' := by
  intro heq
  subst heq
  exact absurd h (by decide)

theorem isDigitCh_ne_plus {d : Char} (h : isDigitCh d = true) : d ≠ '+' := by
  intro heq
  subst heq
  exact absurd h (by decide)

theorem rstripCh_append_single (c : Char) (A : List Char) :
    rstripCh c (A ++ [c]) = rstripCh c A := by
  rw [rstripCh, rstripCh, List.reverse_append]
  simp [List.dropWhile_cons_of_pos]

theorem takeDigits_all {D r : List Char} (hD : ∀ c ∈ D, isDigitCh c = true)
    (hr : isDigitCh (r.headD ' ') = false) :
    takeDigits (D ++ r) = (D, r) := by
  induction D with
  | nil =>
      simp only [List.nil_append]
      cases r with
      | nil => rfl
      | cons a r2 =>
          rw [takeDigits]
          rw [if_neg (by simpa using hr)]
  | cons d D2 ih =>
      rw [List.cons_append, takeDigits]
      rw [if_pos (hD d (by simp))]
      have h2 := ih (fun c hc => hD c (by simp [hc]))
      simp [h2]

theorem matchNumBody_digitsOnly {D : List Char}
    (hD : ∀ c ∈ D, isDigitCh c = true) (hDne : D ≠ []) :
    matchNumBody D = some (D, (natOfDigits D : ℚ)) := by
  have ht : takeDigits D = (D, []) := by
    simpa using @takeDigits_all _ [] hD (by rfl)
  rw [matchNumBody]
  simp only [ht]
  rw [dotFrac]
  rw [if_neg hDne]

theorem matchNumBody_intfrac {D Z : List Char}
    (hD : ∀ c ∈ D, isDigitCh c = true) (hZ : ∀ c ∈ Z, isDigitCh c = true)
    (hZne : Z ≠ []) :
    matchNumBody (D ++ '.' :: Z) = some (D ++ '.' :: Z,
      (natOfDigits D : ℚ) + (natOfDigits Z : ℚ) / 10 ^ Z.length) := by
  have ht : takeDigits (D ++ '.' :: Z) = (D, '.' :: Z) :=
    takeDigits_all hD (by rfl)
  have htZ : takeDigits Z = (Z, []) := by
    simpa using @takeDigits_all _ [] hZ (by rfl)
  have hdf : dotFrac ('.' :: Z) = some Z := by
    cases Z with
    | nil => exact absurd rfl hZne
    | cons z0 Z2 =>
        rw [dotFrac]
        rw [if_pos ⟨rfl, by simpa using hZ z0 (by simp)⟩]
        rw [htZ]
  rw [matchNumBody]
  simp only [ht, hdf]

theorem matchNumAt_body {W : List Char} {q : ℚ}
    (h : matchNumBody W = some (W, q))
    (hfirst : isDigitCh (W.headD ' ') = true ∨ W.headD ' ' = '.') :
    matchNumAt W = some (W, q) := by
  cases W with
  | nil =>
      rcases hfirst with h1 | h1
      · exact absurd h1 (by decide)
      · exact absurd h1 (by decide)
  | cons a r =>
      simp only [matchNumAt]
      have hdash : a ≠ '-' := by
        rcases hfirst with h1 | h1
        · exact isDigitCh_ne_dash (by simpa using h1)
        · simp only [List.headD_cons] at h1
          subst h1
          decide
      have hplus : a ≠ '+' := by
        rcases hfirst with h1 | h1
        · exact isDigitCh_ne_plus (by simpa using h1)
        · simp only [List.headD_cons] at h1
          subst h1
          decide
      rw [if_neg hdash, if_neg hplus]
      exact h

theorem matchNumAt_negSign {W : List Char} {q : ℚ}
    (h : matchNumBody W = some (W, q)) :
    matchNumAt ('-' :: W) = some ('-' :: W, -q) := by
  simp only [matchNumAt]
  rw [if_pos trivial, h]
  rfl

theorem searchNum_head {W : List Char} {q : ℚ}
    (h : matchNumAt W = some (W, q)) :
    searchNum 'E' ('E' :: W) = some ([], W, q, []) := by
  simp only [searchNum]
  rw [if_pos trivial, h]
  simp


theorem matchNumAt_sgn (P : Prop) [Decidable P] (W : List Char) (x : ℚ)
    (hW : matchNumBody W = some (W, x)) (hfirst : isDigitCh (W.headD ' ') = true) :
    matchNumAt ((if P then ['-'] else []) ++ W) =
      some ((if P then ['-'] else []) ++ W, if P then -x else x) := by
  by_cases hp : P
  · rw [if_pos hp, if_pos hp]
    simpa using matchNumAt_negSign hW
  · rw [if_neg hp, if_neg hp]
    simpa using matchNumAt_body hW (Or.inl hfirst)

theorem int_sign_cast (r : ℤ) :
    (if r < 0 then -((r.natAbs : ℚ)) else (r.natAbs : ℚ)) = (r : ℚ) := by
  by_cases hr : r < 0
  · rw [if_pos hr]
    have h2 : (r.natAbs : ℤ) = -r := Int.ofNat_natAbs_of_nonpos (le_of_lt hr)
    have h3 : ((r.natAbs : ℤ) : ℚ) = ((-r : ℤ) : ℚ) := congrArg (fun a : ℤ => (a : ℚ)) h2
    rw [Int.cast_natCast, Int.cast_neg] at h3
    rw [h3]
    ring
  · rw [if_neg hr]
    have h2 : (r.natAbs : ℤ) = r := Int.natAbs_of_nonneg (not_lt.mp hr)
    have h3 : ((r.natAbs : ℤ) : ℚ) = (r : ℚ) := congrArg (fun a : ℤ => (a : ℚ)) h2
    rw [Int.cast_natCast] at h3
    exact h3

/-- The trimmed `%.6f` rendering of `q` reparses (by the numeral pattern)
to exactly `q` rounded to six decimals. -/
theorem trimmedE_parse (q : ℚ) :
    matchNumAt (rstripCh '.' (rstripCh '0' (fmtFixed 6 q))) =
      some (rstripCh '.' (rstripCh '0' (fmtFixed 6 q)), roundTo 6 q) := by
  have hfmt : fmtFixed 6 q =
      (if fixedVal 6 q < 0 then ['-'] else []) ++
        (natDigits ((fixedVal 6 q).natAbs / 10 ^ 6) ++
          '.' :: natDigitsPad 6 ((fixedVal 6 q).natAbs % 10 ^ 6)) := by
    rw [fmtFixed]
    norm_num
  have hDdig := (natDigits_spec ((fixedVal 6 q).natAbs / 10 ^ 6)).2.1
  have hDne := (natDigits_spec ((fixedVal 6 q).natAbs / 10 ^ 6)).2.2
  have hDval := (natDigits_spec ((fixedVal 6 q).natAbs / 10 ^ 6)).1
  have hheadD : isDigitCh ((natDigits ((fixedVal 6 q).natAbs / 10 ^ 6)).headD ' ') = true := by
    cases hD2 : natDigits ((fixedVal 6 q).natAbs / 10 ^ 6) with
    | nil => exact absurd hD2 hDne
    | cons d D2 =>
        rw [List.headD_cons]
        exact hDdig d (by rw [hD2]; simp)
  have hfp_lt : (fixedVal 6 q).natAbs % 10 ^ 6 < 10 ^ 6 := Nat.mod_lt _ (by norm_num)
  have hnval : (fixedVal 6 q).natAbs =
      (fixedVal 6 q).natAbs / 10 ^ 6 * 10 ^ 6 + (fixedVal 6 q).natAbs % 10 ^ 6 :=
    (Nat.div_add_mod' _ _).symm
  obtain ⟨W, hWeq, hWparse, hWfirst⟩ :
      ∃ W, rstripCh '.' (rstripCh '0' (fmtFixed 6 q))
            = (if fixedVal 6 q < 0 then ['-'] else []) ++ W ∧
          matchNumBody W = some (W, ((fixedVal 6 q).natAbs : ℚ) / 10 ^ (6:ℕ)) ∧
          isDigitCh (W.headD ' ') = true := by
    by_cases hfp0 : (fixedVal 6 q).natAbs % 10 ^ 6 = 0
    · -- the fractional part is all zeros and is stripped entirely
      refine ⟨natDigits ((fixedVal 6 q).natAbs / 10 ^ 6), ?_, ?_, hheadD⟩
      · have hZ : natDigitsPad 6 ((fixedVal 6 q).natAbs % 10 ^ 6) = List.replicate 6 '0' := by
          rw [hfp0]
          decide
        have h1 : rstripCh '0' ('.' :: List.replicate 6 '0') = ['.'] := by
          rw [rstripCh_cons _ (by decide), rstripCh_replicate]
        rw [hfmt, hZ, ← List.append_assoc]
        rw [rstripCh_append _ (by rw [h1]; simp), h1]
        rw [rstripCh_append_single]
        rw [rstripCh_all_ne]
        intro d hd
        rcases List.mem_append.mp hd with h1 | h1
        · by_cases hr0 : fixedVal 6 q < 0
          · rw [if_pos hr0] at h1
            obtain rfl : d = '-' := by simpa using h1
            decide
          · rw [if_neg hr0] at h1
            simp at h1
        · exact isDigitCh_ne_dot (hDdig d h1)
      · rw [matchNumBody_digitsOnly hDdig hDne, hDval]
        congr 2
        have hip : (fixedVal 6 q).natAbs = (fixedVal 6 q).natAbs / 10 ^ 6 * 10 ^ 6 := by
          conv_lhs => rw [hnval]
          rw [hfp0]
          omega
        have hipQ : ((fixedVal 6 q).natAbs : ℚ)
            = ((fixedVal 6 q).natAbs / 10 ^ 6 : ℕ) * 10 ^ (6:ℕ) := by exact_mod_cast hip
        rw [hipQ]
        field_simp
    · -- a nonzero fractional part keeps its dot and significant digits
      obtain ⟨z, hzdec⟩ := rstripCh_decomp '0' (natDigitsPad 6 ((fixedVal 6 q).natAbs % 10 ^ 6))
      have hZdig := natDigitsPad_digits 6 ((fixedVal 6 q).natAbs % 10 ^ 6)
      have hZval := natDigitsPad_val 6 ((fixedVal 6 q).natAbs % 10 ^ 6)
      have hZlen : (natDigitsPad 6 ((fixedVal 6 q).natAbs % 10 ^ 6)).length = 6 :=
        natDigitsPad_len hfp_lt (by norm_num)
      have hZ'ne : rstripCh '0' (natDigitsPad 6 ((fixedVal 6 q).natAbs % 10 ^ 6)) ≠ [] := by
        intro h0
        rw [h0, List.nil_append] at hzdec
        rw [hzdec, natOfDigits_replicate_zero] at hZval
        exact hfp0 hZval.symm
      have hZ'dig : ∀ c ∈ rstripCh '0' (natDigitsPad 6 ((fixedVal 6 q).natAbs % 10 ^ 6)),
          isDigitCh c = true := fun c hc => hZdig c (rstripCh_subset c hc)
      have hZ'val : natOfDigits (rstripCh '0' (natDigitsPad 6 ((fixedVal 6 q).natAbs % 10 ^ 6)))
          * 10 ^ z = (fixedVal 6 q).natAbs % 10 ^ 6 := by
        have h2 := congrArg natOfDigits hzdec
        rw [natOfDigits_append, natOfDigits_replicate_zero, List.length_replicate] at h2
        rw [hZval] at h2
        simpa using h2.symm
      have hZ'len : (rstripCh '0' (natDigitsPad 6 ((fixedVal 6 q).natAbs % 10 ^ 6))).length + z
          = 6 := by
        have h2 := congrArg List.length hzdec
        rw [List.length_append, List.length_replicate, hZlen] at h2
        omega
      refine ⟨natDigits ((fixedVal 6 q).natAbs / 10 ^ 6) ++
        '.' :: rstripCh '0' (natDigitsPad 6 ((fixedVal 6 q).natAbs % 10 ^ 6)), ?_, ?_, ?_⟩
      · have h1 : rstripCh '0' ('.' :: natDigitsPad 6 ((fixedVal 6 q).natAbs % 10 ^ 6))
            = '.' :: rstripCh '0' (natDigitsPad 6 ((fixedVal 6 q).natAbs % 10 ^ 6)) :=
          rstripCh_cons _ (by decide)
        rw [hfmt, ← List.append_assoc]
        rw [rstripCh_append _ (by rw [h1]; simp), h1]
        obtain ⟨dlast, hdl⟩ :=
          Option.isSome_iff_exists.mp (List.getLast?_isSome.mpr hZ'ne)
        have hne2 : dlast ≠ '.' :=
          isDigitCh_ne_dot (hZ'dig dlast (List.mem_of_mem_getLast? hdl))
        have hlast2 : (((if fixedVal 6 q < 0 then ['-'] else []) ++
            natDigits ((fixedVal 6 q).natAbs / 10 ^ 6)) ++
            '.' :: rstripCh '0' (natDigitsPad 6 ((fixedVal 6 q).natAbs % 10 ^ 6))).getLast?
            = some dlast := by
          rw [List.getLast?_append]
          have h3 : ('.' :: rstripCh '0'
              (natDigitsPad 6 ((fixedVal 6 q).natAbs % 10 ^ 6))).getLast? = some dlast := by
            cases hz2 : rstripCh '0' (natDigitsPad 6 ((fixedVal 6 q).natAbs % 10 ^ 6)) with
            | nil => exact absurd hz2 hZ'ne
            | cons a t =>
                rw [List.getLast?_cons_cons]
                rw [hz2] at hdl
                exact hdl
          rw [h3]
          rfl
        rw [rstripCh_eq_self_of_getLast hlast2 hne2, List.append_assoc]
      · rw [matchNumBody_intfrac hDdig hZ'dig hZ'ne, hDval]
        congr 1
        congr 1
        have h6 : (10:ℚ) ^ (6:ℕ) = 10 ^ (rstripCh '0'
            (natDigitsPad 6 ((fixedVal 6 q).natAbs % 10 ^ 6))).length * 10 ^ z := by
          rw [← pow_add]
          congr 1
          omega
        have hfpq : (((fixedVal 6 q).natAbs % 10 ^ 6 : ℕ) : ℚ)
            = (natOfDigits (rstripCh '0' (natDigitsPad 6 ((fixedVal 6 q).natAbs % 10 ^ 6))) : ℚ)
              * 10 ^ z := by
          exact_mod_cast congrArg (fun m : ℕ => (m : ℚ)) hZ'val.symm
        have hnq : (((fixedVal 6 q).natAbs : ℕ) : ℚ)
            = ((fixedVal 6 q).natAbs / 10 ^ 6 : ℕ) * 10 ^ (6:ℕ)
              + (((fixedVal 6 q).natAbs % 10 ^ 6 : ℕ) : ℚ) := by
          exact_mod_cast congrArg (fun m : ℕ => (m : ℚ)) hnval
        rw [hnq, hfpq, h6]
        have hz10 : (10:ℚ) ^ z ≠ 0 := by positivity
        have hl10 : (10:ℚ) ^ (rstripCh '0'
            (natDigitsPad 6 ((fixedVal 6 q).natAbs % 10 ^ 6))).length ≠ 0 := by positivity
        field_simp
        ring
      · cases hD2 : natDigits ((fixedVal 6 q).natAbs / 10 ^ 6) with
        | nil => exact absurd hD2 hDne
        | cons d D2 =>
            rw [List.cons_append, List.headD_cons]
            exact hDdig d (by rw [hD2]; simp)
  rw [hWeq, matchNumAt_sgn _ W _ hWparse hWfirst]
  congr 2
  rw [roundTo]
  have hpush : (if fixedVal 6 q < 0 then -(((fixedVal 6 q).natAbs : ℚ) / 10 ^ (6:ℕ))
      else ((fixedVal 6 q).natAbs : ℚ) / 10 ^ (6:ℕ))
      = (if fixedVal 6 q < 0 then -((fixedVal 6 q).natAbs : ℚ)
          else ((fixedVal 6 q).natAbs : ℚ)) / 10 ^ (6:ℕ) := by
    split
    · ring
    · rfl
  rw [hpush, int_sign_cast]

theorem fmtE_parse (q : ℚ) :
    searchNum 'E' (fmtE q) =
      some ([], rstripCh '.' (rstripCh '0' (fmtFixed 6 q)), roundTo 6 q, []) :=
  searchNum_head (trimmedE_parse q)

/-- C10: the rewritten extrusion field of a compensated line is the text
`E{originalExtrusion * multiplier:.6f}` with trailing zeros and a trailing
decimal point trimmed; scanning that field with the extrusion pattern parses
its numeric value back as `originalExtrusion * multiplier` rounded to six
decimals, which differs from the exact product by at most `1/2000000`
(half of the last printed decimal place). -/
theorem c10_roundtrip (v mult : ℚ) :
    searchNum 'E' (fmtE (v * mult)) =
      some ([], rstripCh '.' (rstripCh '0' (fmtFixed 6 (v * mult))),
        roundTo 6 (v * mult), []) ∧
    |roundTo 6 (v * mult) - v * mult| ≤ 1 / 2000000 := by
  refine ⟨fmtE_parse (v * mult), ?_⟩
  have h := abs_sub_round ((v * mult) * 10 ^ (6:ℕ))
  have key : roundTo 6 (v * mult) - v * mult
      = ((round ((v * mult) * 10 ^ (6:ℕ)) : ℚ) - (v * mult) * 10 ^ (6:ℕ)) / 10 ^ (6:ℕ) := by
    rw [roundTo, fixedVal]
    field_simp
    ring
  rw [key, abs_div, abs_of_pos (by norm_num : (0:ℚ) < 10 ^ (6:ℕ))]
  rw [div_le_iff₀ (by norm_num : (0:ℚ) < 10 ^ (6:ℕ))]
  rw [show (1:ℚ) / 2000000 * 10 ^ (6:ℕ) = 1 / 2 from by norm_num]
  rw [abs_sub_comm]
  exact h

end FlowComp
